import Mathlib

/-!
Verification of the K-means image-compression pipeline
(`src/image_compressor.py`, `src/main.py`) against its specification.

The embedding follows the Python source.  A numpy array is a shape together
with its row-major flat data; channel arithmetic inside the clustering engine
is modelled over `ℚ` (sklearn works in floating point; the claims under
verification are structural, not about rounding of individual float
operations).  `sklearn.cluster.KMeans` is an external dependency of the
repository; it is modelled by the classic Lloyd iteration described in spec
§4.2 (assign each sample to the nearest centroid by squared Euclidean
distance with lowest-index tie-break, recompute centroids as cluster means,
stop when assignments stabilise or after the default cap of 300 iterations),
with the randomized k-means++ initialisation abstracted as a deterministic
selection of k samples governed by the seed (the source always passes
`random_state=42`).  Parameter validation follows spec §7: `k < 1`,
`k > sample count` (hence also an empty sample set) fail with the
InvalidParameterError class of the spec's taxonomy.  Filesystem effects
(`os.makedirs`, `PIL.Image.save`, `os.path.getsize`) are modelled by an
explicit filesystem state; the image encoder is an abstract parameter
`enc : NpArray → Nat` giving the byte size of an encoded file.
-/

namespace ImgKMeans

/-- One color sample: a 3-channel value, as produced by `reshape(-1, 3)`. -/
structure Color where
  r : ℚ
  g : ℚ
  b : ℚ
deriving DecidableEq

/-- A numpy array: its shape and its flat row-major data. -/
structure NpArray where
  shape : List Nat
  data : List ℚ
deriving DecidableEq

/-- Errors surfaced by the pipeline, following the spec's taxonomy (§7):
numpy's reshape failure is a ValueError, invalid k is the
InvalidParameterError class, and `os.makedirs("")` raises
FileNotFoundError. -/
inductive PyError where
  | valueError
  | invalidParameter
  | fileNotFoundError
deriving DecidableEq

/-- `img_array.reshape(-1, 3)` on the flat data: groups consecutive values
into triples; fails (numpy ValueError) when the total element count is not a
multiple of 3. -/
def toTriples : List ℚ → Option (List Color)
  | [] => some []
  | r :: g :: b :: rest => (toTriples rest).map (fun cs => ⟨r, g, b⟩ :: cs)
  | _ => none

/-- Squared Euclidean distance in color space. -/
def sqDist (x y : Color) : ℚ :=
  (x.r - y.r) ^ 2 + (x.g - y.g) ^ 2 + (x.b - y.b) ^ 2

/-- Index of the nearest centroid seen so far; strict `<` keeps the earliest
index on ties (numpy argmin tie-break, deterministic per spec §4.2). -/
def argminAux (p : Color) : List Color → Nat → Nat → ℚ → Nat
  | [], _, best, _ => best
  | c :: cs, i, best, bestD =>
      if sqDist p c < bestD then argminAux p cs (i + 1) i (sqDist p c)
      else argminAux p cs (i + 1) best bestD

/-- Cluster assignment of one sample: the index of the nearest centroid. -/
def assignLabel (centers : List Color) (p : Color) : Nat :=
  match centers with
  | [] => 0
  | c :: cs => argminAux p cs 1 0 (sqDist p c)

/-- Assignment step of Lloyd's iteration. -/
def assignLabels (centers pixels : List Color) : List Nat :=
  pixels.map (assignLabel centers)

/-- The samples assigned to cluster `j`. -/
def clusterMembers (pixels : List Color) (labels : List Nat) (j : Nat) :
    List Color :=
  ((pixels.zip labels).filter (fun pl => pl.2 == j)).map Prod.fst

/-- Mean color of a list of samples. -/
def colorMean (ps : List Color) : Color :=
  ⟨(ps.map Color.r).sum / ps.length, (ps.map Color.g).sum / ps.length,
    (ps.map Color.b).sum / ps.length⟩

/-- Update step of Lloyd's iteration: each centroid becomes the mean of its
cluster; a cluster that lost all members keeps its previous centroid (the
engine must not propagate an undefined centroid, spec §4.2). -/
def updateCenters (pixels : List Color) (labels : List Nat)
    (centers : List Color) : List Color :=
  (List.range centers.length).map fun j =>
    let members := clusterMembers pixels labels j
    if members.isEmpty then centers.getD j ⟨0, 0, 0⟩ else colorMean members

/-- Lloyd's iteration with an iteration cap: repeat assign/update until the
assignment stabilises or the fuel runs out. -/
def lloydLoop (pixels : List Color) : Nat → List Color → List Color
  | 0, centers => centers
  | fuel + 1, centers =>
      let labels := assignLabels centers pixels
      let centers' := updateCenters pixels labels centers
      if assignLabels centers' pixels = labels then centers'
      else lloydLoop pixels fuel centers'

/-- Deterministic initialisation: k samples selected by a rotation governed
by the seed (abstraction of seeded k-means++). -/
def kmeansInit (seed : Nat) (pixels : List Color) (k : Nat) : List Color :=
  (pixels.drop (seed % pixels.length) ++ pixels.take (seed % pixels.length)).take k

/-- Result of a fit: `cluster_centers_` and `labels_`, as on the sklearn
estimator. -/
structure KMeansResult where
  cluster_centers_ : List Color
  labels_ : List Nat
deriving DecidableEq

/-- Model of `KMeans(n_clusters=k, random_state=seed, n_init=10).fit(pixels)`:
validates `1 ≤ k ≤ number of samples` (otherwise the InvalidParameterError
class of spec §7), then runs Lloyd's iteration with sklearn's default cap of
300 iterations and labels the samples against the final centroids. -/
def kmeansFit (seed : Nat) (pixels : List Color) (n_clusters : Nat) :
    Except PyError KMeansResult :=
  if n_clusters < 1 ∨ pixels.length < n_clusters then .error .invalidParameter
  else
    let centers := lloydLoop pixels 300 (kmeansInit seed pixels n_clusters)
    .ok ⟨centers, assignLabels centers pixels⟩

/-- `astype(np.uint8)` on one channel value: truncation to the 8-bit integer
range (the centroid means arising here are nonnegative, where the C cast is
the floor, reduced mod 256). -/
def truncU8 (q : ℚ) : Nat := (⌊q⌋).toNat % 256

/-- `astype(np.uint8)` applied to a color vector. -/
def truncColor (c : Color) : Color :=
  ⟨(truncU8 c.r : ℚ), (truncU8 c.g : ℚ), (truncU8 c.b : ℚ)⟩

/-- Flat row-major channel data of a pixel list. -/
def colorToChannels (c : Color) : List ℚ := [c.r, c.g, c.b]

/-- `astype(np.uint8)` on a flat data buffer. -/
def astype_uint8 (xs : List ℚ) : List ℚ :=
  xs.map fun q => ((truncU8 q : Nat) : ℚ)

/-- `compress_image_kmeans(img_array, n_colors)`: flatten to `(-1, 3)` color
samples, fit K-means with `random_state=42`, replace each pixel by
`cluster_centers_[labels_]`, reshape to the original shape and truncate to
`uint8`. -/
def compress_image_kmeans (img_array : NpArray) (n_colors : Nat) :
    Except PyError NpArray :=
  match toTriples img_array.data with
  | none => .error .valueError
  | some pixels =>
    match kmeansFit 42 pixels n_colors with
    | .error e => .error e
    | .ok km =>
      let compressed_pixels :=
        km.labels_.map fun l => km.cluster_centers_.getD l ⟨0, 0, 0⟩
      .ok ⟨img_array.shape,
        astype_uint8 (compressed_pixels.flatMap colorToChannels)⟩

/-- `calculate_compression_ratio(original_img, compressed_img)`: the
unique-color count of the original over that of the compressed image, or 1
when the latter is zero (both counts via `np.unique(x.reshape(-1,3), axis=0)`,
which raises ValueError on data not reshapable to 3 channels). -/
def calculate_compression_ratio (original_img compressed_img : NpArray) :
    Except PyError ℚ :=
  match toTriples original_img.data, toTriples compressed_img.data with
  | some po, some pc =>
      let orig_colors := po.dedup.length
      let comp_colors := pc.dedup.length
      .ok (if 0 < comp_colors then (orig_colors : ℚ) / (comp_colors : ℚ) else 1)
  | _, _ => .error .valueError

/-! Filesystem model.  Readable image files decode to arrays (`load_image`
catches every decode failure and returns `None`); files written by the
pipeline are recorded with their byte size; `os.makedirs` records
directories and raises FileNotFoundError on the empty path. -/

/-- The filesystem as the pipeline observes it. -/
structure FS where
  images : List (String × NpArray)
  written : List (String × Nat)
  dirs : List String
deriving DecidableEq

/-- `os.path.exists`. -/
def FS.path_exists (fs : FS) (p : String) : Bool :=
  fs.images.any (fun e => e.1 == p) || fs.written.any (fun e => e.1 == p) ||
    fs.dirs.any (fun d => d == p)

/-- `os.path.dirname` (posix): everything up to the last slash, with
trailing slashes stripped unless the head is all slashes; the empty string
when the path has no slash. -/
def os_path_dirname (p : String) : String :=
  let head := p.data.reverse.dropWhile fun c => !(c == '/')
  if head.all (fun c => c == '/') then String.mk head.reverse
  else String.mk ((head.dropWhile fun c => c == '/').reverse)

/-- `os.path.basename` (posix): everything after the last slash. -/
def os_path_basename (p : String) : String :=
  String.mk (p.data.reverse.takeWhile fun c => !(c == '/')).reverse

/-- Root part of `os.path.splitext` applied to a basename: drops the part
from the last dot on, unless only dots precede that dot. -/
def splitextRoot (name : String) : String :=
  let cs := name.data
  let extLen := (cs.reverse.takeWhile fun c => !(c == '.')).length
  if extLen = cs.length then name
  else
    let root := cs.take (cs.length - extLen - 1)
    if root.all (fun c => c == '.') then name else String.mk root

/-- `os.path.join` (posix) for two components. -/
def os_path_join (a b : String) : String :=
  if b.data.head? = some '/' then b
  else if a = "" ∨ a.data.getLast? = some '/' then a ++ b
  else a ++ "/" ++ b

/-- `os.makedirs(d, exist_ok=True)`: records the directory; raises
FileNotFoundError when `d` is the empty string (as CPython does). -/
def os_makedirs (fs : FS) (d : String) : Except (PyError × FS) FS :=
  if d = "" then .error (.fileNotFoundError, fs)
  else .ok { fs with dirs := d :: fs.dirs }

/-- `load_image(image_path)`: decode the file to an array; any failure is
caught and reported as `None`. -/
def load_image (fs : FS) (image_path : String) : Option NpArray :=
  fs.images.lookup image_path

/-- `save_image(img_array, output_path)`: `os.makedirs(os.path.dirname(
output_path), exist_ok=True)`, then encode and write the file and return
its byte size (`os.path.getsize`).  `enc` abstracts the PNG encoder. -/
def save_image (enc : NpArray → Nat) (fs : FS) (img_array : NpArray)
    (output_path : String) : Except (PyError × FS) (Nat × FS) :=
  match os_makedirs fs (os_path_dirname output_path) with
  | .error e => .error e
  | .ok fs₁ =>
      let file_size := enc img_array
      .ok (file_size, { fs₁ with written := (output_path, file_size) :: fs₁.written })

/-- `compress_image_file(input_path, output_path, n_colors)`: load (on
decode failure return `None` without touching the filesystem), compress,
compute the ratio, save.  An exception anywhere propagates together with
the filesystem state reached so far. -/
def compress_image_file (enc : NpArray → Nat) (fs : FS)
    (input_path output_path : String) (n_colors : Nat) :
    Except (PyError × FS) (Option NpArray × FS) :=
  match load_image fs input_path with
  | none => .ok (none, fs)
  | some img_array =>
    match compress_image_kmeans img_array n_colors with
    | .error e => .error (e, fs)
    | .ok compressed_img =>
      match calculate_compression_ratio img_array compressed_img with
      | .error e => .error (e, fs)
      | .ok _ratio =>
        match save_image enc fs compressed_img output_path with
        | .error e => .error e
        | .ok (_file_size, fs') => .ok (some compressed_img, fs')

/-- One per-level record of `compress_with_multiple_levels`. -/
structure CompressionResult where
  n_colors : Nat
  path : String
  image : NpArray
  ratio : ℚ
  file_size : Nat
deriving DecidableEq

/-- Loop body of `compress_with_multiple_levels`: for each level compress,
save to `output_dir/compressed_{n}_colors.png`, compute the ratio and
append the result (fail-fast on any exception). -/
def runLevels (enc : NpArray → Nat) (img_array : NpArray) (output_dir : String) :
    List Nat → FS → Except (PyError × FS) (List CompressionResult × FS)
  | [], fs => .ok ([], fs)
  | n_colors :: rest, fs =>
    match compress_image_kmeans img_array n_colors with
    | .error e => .error (e, fs)
    | .ok compressed_img =>
      let output_path :=
        os_path_join output_dir ("compressed_" ++ toString n_colors ++ "_colors.png")
      match save_image enc fs compressed_img output_path with
      | .error e => .error e
      | .ok (file_size, fs') =>
        match calculate_compression_ratio img_array compressed_img with
        | .error e => .error (e, fs')
        | .ok ratio =>
          match runLevels enc img_array output_dir rest fs' with
          | .error e => .error e
          | .ok (results, fs'') =>
            .ok (⟨n_colors, output_path, compressed_img, ratio, file_size⟩ :: results, fs'')

/-- `compress_with_multiple_levels(input_path, output_dir, levels)` (source
default `levels=[2,4,8,16,32,64]`): load once, then one full
compress/save/ratio cycle per level, returning the ordered result list
(`None` when loading failed). -/
def compress_with_multiple_levels (enc : NpArray → Nat) (fs : FS)
    (input_path output_dir : String) (levels : List Nat) :
    Except (PyError × FS) (Option (List CompressionResult) × FS) :=
  match load_image fs input_path with
  | none => .ok (none, fs)
  | some img_array =>
    match runLevels enc img_array output_dir levels fs with
    | .error e => .error e
    | .ok (results, fs') => .ok (some results, fs')

/-- `compress_single_image(input_path, n_colors, output_dir)` from
`main.py`: derive `{basename-root}_compressed_{n}.png` under the output
directory and run the single-image pipeline. -/
def compress_single_image (enc : NpArray → Nat) (fs : FS) (input_path : String)
    (n_colors : Nat) (output_dir : String) :
    Except (PyError × FS) (Option NpArray × FS) :=
  let filename := splitextRoot (os_path_basename input_path)
  let output_path :=
    os_path_join output_dir (filename ++ "_compressed_" ++ toString n_colors ++ ".png")
  compress_image_file enc fs input_path output_path n_colors

/-- `compress_with_analysis(input_path, output_dir, comparison_dir)` from
`main.py`: create both directories, then run the Multi-Level Driver over the
fixed levels `[4, 8, 16, 32, 64, 128]`.  The visual report and the printed
summary consume the returned results without altering them (reporting is
out-of-scope plumbing, spec §1), so the model returns the result list. -/
def compress_with_analysis (enc : NpArray → Nat) (fs : FS)
    (input_path output_dir comparison_dir : String) :
    Except (PyError × FS) (Option (List CompressionResult) × FS) :=
  let levels := [4, 8, 16, 32, 64, 128]
  match os_makedirs fs output_dir with
  | .error e => .error e
  | .ok fs₁ =>
    match os_makedirs fs₁ comparison_dir with
    | .error e => .error e
    | .ok fs₂ => compress_with_multiple_levels enc fs₂ input_path output_dir levels

/-- `main()` from `main.py` after argument parsing: exits with status 1 when
the input path does not exist, otherwise runs the analysis pipeline (with the
source's fixed comparison directory) or the single-image pipeline; an
uncaught exception also terminates with a nonzero status.  Returns the exit
status and the final filesystem. -/
def main (enc : NpArray → Nat) (fs : FS) (input : String) (colors : Nat)
    (analysis : Bool) (output : String) : Nat × FS :=
  if fs.path_exists input then
    if analysis then
      match compress_with_analysis enc fs input output "../images/comparisons" with
      | .ok (_, fs') => (0, fs')
      | .error (_, fs') => (1, fs')
    else
      match compress_single_image enc fs input colors output with
      | .ok (_, fs') => (0, fs')
      | .error (_, fs') => (1, fs')
  else (1, fs)

/-! Structure of `reshape(-1, 3)`. -/

theorem toTriples_some_length {xs : List ℚ} {cs : List Color}
    (h : toTriples xs = some cs) : xs.length = 3 * cs.length := by
  induction xs using toTriples.induct generalizing cs with
  | case1 =>
      simp only [toTriples, Option.some_inj] at h
      subst h; rfl
  | case2 r g b rest ih =>
      simp only [toTriples, Option.map_eq_some'] at h
      obtain ⟨cs', hcs', rfl⟩ := h
      simp only [List.length_cons, ih hcs']
      ring
  | case3 t h1 h2 =>
      cases t with
      | nil => exact absurd rfl h1
      | cons x t' =>
        cases t' with
        | nil => simp [toTriples] at h
        | cons y t'' =>
          cases t'' with
          | nil => simp [toTriples] at h
          | cons z rest => exact absurd rfl (h2 x y z rest)

theorem toTriples_none_of_not_dvd {xs : List ℚ} (h : ¬ 3 ∣ xs.length) :
    toTriples xs = none := by
  cases hx : toTriples xs with
  | none => rfl
  | some cs => exact absurd ⟨cs.length, toTriples_some_length hx⟩ h

theorem flatMap_channels_cons (c : Color) (cs : List Color) :
    (c :: cs).flatMap colorToChannels =
      c.r :: c.g :: c.b :: cs.flatMap colorToChannels := rfl

theorem toTriples_flatMap (cs : List Color) :
    toTriples (cs.flatMap colorToChannels) = some cs := by
  induction cs with
  | nil => rfl
  | cons c cs ih => rw [flatMap_channels_cons, toTriples, ih]; rfl

theorem astype_uint8_flatMap (cs : List Color) :
    astype_uint8 (cs.flatMap colorToChannels) =
      (cs.map truncColor).flatMap colorToChannels := by
  induction cs with
  | nil => rfl
  | cons c cs ih =>
      rw [flatMap_channels_cons, List.map_cons, flatMap_channels_cons, ← ih]
      rfl

theorem toTriples_replicate_zero (n : Nat) :
    toTriples (List.replicate (3 * n) 0) = some (List.replicate n ⟨0, 0, 0⟩) := by
  induction n with
  | zero => rfl
  | succ n ih =>
      have h3 : 3 * (n + 1) = (3 * n) + 1 + 1 + 1 := by ring
      rw [h3, List.replicate_succ, List.replicate_succ, List.replicate_succ,
        toTriples, ih]
      rfl

theorem toTriples_cons_inv {xs : List ℚ} {c : Color} {cs : List Color}
    (h : toTriples xs = some (c :: cs)) :
    ∃ rest, xs = c.r :: c.g :: c.b :: rest ∧ toTriples rest = some cs := by
  cases xs with
  | nil => simp [toTriples] at h
  | cons r t' =>
    cases t' with
    | nil => simp [toTriples] at h
    | cons g t'' =>
      cases t'' with
      | nil => simp [toTriples] at h
      | cons b rest =>
          simp only [toTriples, Option.map_eq_some'] at h
          obtain ⟨cs', hcs', heq⟩ := h
          injection heq with h1 h2
          subst h1; subst h2
          exact ⟨rest, rfl, hcs'⟩

theorem toTriples_getD {xs : List ℚ} {cs : List Color}
    (h : toTriples xs = some cs) :
    ∀ i, i < cs.length →
      cs.getD i ⟨0, 0, 0⟩ =
        ⟨xs.getD (3 * i) 0, xs.getD (3 * i + 1) 0, xs.getD (3 * i + 2) 0⟩ := by
  induction cs generalizing xs with
  | nil => intro i hi; simp at hi
  | cons c cs ih =>
      intro i hi
      obtain ⟨rest, rfl, hrest⟩ := toTriples_cons_inv h
      cases i with
      | zero => simp
      | succ i =>
          have h3 : 3 * (i + 1) = 3 * i + 1 + 1 + 1 := by ring
          simp only [List.getD_cons_succ, h3, List.getD_cons_succ]
          exact ih hrest i (by simpa using hi)

/-! Small list helpers. -/

theorem getD_mem {α : Type} {xs : List α} {n : Nat} (d : α)
    (h : n < xs.length) : xs.getD n d ∈ xs := by
  induction xs generalizing n with
  | nil => simp at h
  | cons x xs ih =>
      cases n with
      | zero => simp
      | succ n => simpa using Or.inr (ih (by simpa using h))

theorem dedup_length_le_of_subset {α : Type} [DecidableEq α]
    {xs ys : List α} (h : ∀ x ∈ xs, x ∈ ys) :
    xs.dedup.length ≤ ys.length := by
  have h1 : xs.toFinset ⊆ ys.toFinset := by
    intro a ha
    rw [List.mem_toFinset] at ha ⊢
    exact h a ha
  calc xs.dedup.length = xs.toFinset.card := (List.card_toFinset xs).symm
    _ ≤ ys.toFinset.card := Finset.card_le_card h1
    _ = ys.dedup.length := List.card_toFinset ys
    _ ≤ ys.length := (List.dedup_sublist ys).length_le

/-! Invariants of the clustering engine. -/

theorem argminAux_lt (p : Color) :
    ∀ (cs : List Color) (i best : Nat) (d : ℚ), best < i →
      argminAux p cs i best d < i + cs.length := by
  intro cs
  induction cs with
  | nil => intro i best d h; simpa [argminAux] using h
  | cons c cs ih =>
      intro i best d h
      rw [argminAux]
      by_cases hlt : sqDist p c < d
      · rw [if_pos hlt]
        have := ih (i + 1) i (sqDist p c) (Nat.lt_succ_self i)
        simpa [Nat.add_comm, Nat.add_assoc, Nat.add_left_comm] using this
      · rw [if_neg hlt]
        have := ih (i + 1) best d (Nat.lt_succ_of_lt h)
        simpa [Nat.add_comm, Nat.add_assoc, Nat.add_left_comm] using this

theorem assignLabel_lt {centers : List Color} (p : Color)
    (h : centers ≠ []) : assignLabel centers p < centers.length := by
  cases centers with
  | nil => exact absurd rfl h
  | cons c cs =>
      have := argminAux_lt p cs 1 0 (sqDist p c) Nat.one_pos
      simpa [assignLabel, Nat.add_comm] using this

theorem assignLabel_singleton (c p : Color) : assignLabel [c] p = 0 := rfl

theorem assignLabels_length (centers pixels : List Color) :
    (assignLabels centers pixels).length = pixels.length :=
  List.length_map _ _

theorem assignLabels_mem_lt {centers pixels : List Color}
    (h : centers ≠ []) :
    ∀ l ∈ assignLabels centers pixels, l < centers.length := by
  intro l hl
  obtain ⟨p, _, rfl⟩ := List.mem_map.mp hl
  exact assignLabel_lt p h

theorem assignLabels_singleton (c : Color) (pixels : List Color) :
    assignLabels [c] pixels = List.replicate pixels.length 0 := by
  induction pixels with
  | nil => rfl
  | cons p ps ih =>
      simp only [assignLabels, List.map_cons, List.length_cons,
        List.replicate_succ] at ih ⊢
      rw [assignLabel_singleton, ih]

theorem clusterMembers_replicate_zero (pixels : List Color) :
    clusterMembers pixels (List.replicate pixels.length 0) 0 = pixels := by
  induction pixels with
  | nil => rfl
  | cons p ps ih =>
      simp only [List.length_cons, List.replicate_succ, clusterMembers,
        List.zip_cons_cons, List.filter_cons] at ih ⊢
      simp only [beq_self_eq_true, if_pos, List.map_cons]
      rw [ih]

theorem updateCenters_length (pixels : List Color) (labels : List Nat)
    (centers : List Color) :
    (updateCenters pixels labels centers).length = centers.length := by
  simp [updateCenters]

theorem updateCenters_single {pixels : List Color} (c : Color)
    (h : pixels ≠ []) :
    updateCenters pixels (List.replicate pixels.length 0) [c] =
      [colorMean pixels] := by
  have hrange : List.range 1 = [0] := rfl
  simp only [updateCenters, List.length_singleton, hrange, List.map_cons,
    List.map_nil, clusterMembers_replicate_zero]
  rw [if_neg (by simpa [List.isEmpty_iff] using h)]

theorem lloydLoop_length (pixels : List Color) :
    ∀ (fuel : Nat) (centers : List Color),
      (lloydLoop pixels fuel centers).length = centers.length := by
  intro fuel
  induction fuel with
  | zero => intro centers; rfl
  | succ fuel ih =>
      intro centers
      rw [lloydLoop]
      by_cases hc :
          assignLabels (updateCenters pixels (assignLabels centers pixels) centers)
            pixels = assignLabels centers pixels
      · rw [if_pos hc, updateCenters_length]
      · rw [if_neg hc, ih, updateCenters_length]

theorem lloydLoop_single {pixels : List Color} (c : Color) (fuel : Nat)
    (h : pixels ≠ []) :
    lloydLoop pixels (fuel + 1) [c] = [colorMean pixels] := by
  rw [lloydLoop]
  rw [assignLabels_singleton, updateCenters_single c h, assignLabels_singleton,
    if_pos rfl]

theorem kmeansInit_length (seed : Nat) {pixels : List Color} {k : Nat}
    (hk : k ≤ pixels.length) : (kmeansInit seed pixels k).length = k := by
  simp only [kmeansInit, List.length_take, List.length_append,
    List.length_drop]
  omega

theorem kmeansFit_ok {seed : Nat} {pixels : List Color} {k : Nat}
    (h1 : 1 ≤ k) (h2 : k ≤ pixels.length) :
    kmeansFit seed pixels k =
      .ok ⟨lloydLoop pixels 300 (kmeansInit seed pixels k),
        assignLabels (lloydLoop pixels 300 (kmeansInit seed pixels k)) pixels⟩ := by
  rw [kmeansFit, if_neg (by omega)]

theorem kmeansFit_err {seed : Nat} {pixels : List Color} {k : Nat}
    (h : k < 1 ∨ pixels.length < k) :
    kmeansFit seed pixels k = .error .invalidParameter := by
  rw [kmeansFit, if_pos h]

theorem kmeansFit_centers_length {seed : Nat} {pixels : List Color} {k : Nat}
    {km : KMeansResult} (h : kmeansFit seed pixels k = .ok km) :
    km.cluster_centers_.length = k ∧
      km.labels_ = assignLabels km.cluster_centers_ pixels := by
  rw [kmeansFit] at h
  by_cases hb : k < 1 ∨ pixels.length < k
  · rw [if_pos hb] at h; exact absurd h (by simp)
  · rw [if_neg hb] at h
    injection h with h'
    subst h'
    push_neg at hb
    refine ⟨?_, rfl⟩
    rw [lloydLoop_length, kmeansInit_length seed hb.2]

/-- Characterization of a successful `compress_image_kmeans` run: the output
keeps the input's shape and flat size, and its pixels are exactly the fitted
centroids indexed by the fitted labels, truncated to `uint8`. -/
theorem compress_image_kmeans_spec {img : NpArray} {pixels : List Color}
    {k : Nat} (hp : toTriples img.data = some pixels) (h1 : 1 ≤ k)
    (h2 : k ≤ pixels.length) :
    ∃ km out,
      kmeansFit 42 pixels k = .ok km ∧
      compress_image_kmeans img k = .ok out ∧
      out.shape = img.shape ∧
      out.data.length = img.data.length ∧
      toTriples out.data =
        some ((km.labels_.map fun l => km.cluster_centers_.getD l ⟨0, 0, 0⟩).map
          truncColor) := by
  obtain ⟨km, hfit⟩ : ∃ km, kmeansFit 42 pixels k = .ok km :=
    ⟨_, kmeansFit_ok h1 h2⟩
  obtain ⟨hclen, hlab⟩ := kmeansFit_centers_length hfit
  have hok : compress_image_kmeans img k =
      .ok ⟨img.shape, astype_uint8 ((km.labels_.map fun l =>
        km.cluster_centers_.getD l ⟨0, 0, 0⟩).flatMap colorToChannels)⟩ := by
    simp only [compress_image_kmeans, hp, hfit]
  have hX := toTriples_some_length (toTriples_flatMap
    (km.labels_.map fun l => km.cluster_centers_.getD l ⟨0, 0, 0⟩))
  refine ⟨km, _, hfit, hok, rfl, ?_, ?_⟩
  · show (astype_uint8 _).length = img.data.length
    rw [astype_uint8, List.length_map, hX, List.length_map, hlab,
      assignLabels_length, toTriples_some_length hp]
  · show toTriples (astype_uint8 _) = _
    rw [astype_uint8_flatMap, toTriples_flatMap]

/-- C1.  For every 3-channel image array and every valid cluster count k
(1 ≤ k ≤ number of pixels), `compress_image_kmeans` succeeds and the output
image contains at most k distinct colors: every output pixel color is one of
the k centroid vectors truncated to 8-bit integers, so the deduplicated
output color list has length ≤ k. -/
theorem compress_at_most_k_colors {img : NpArray} {pixels : List Color}
    {k : Nat} (hp : toTriples img.data = some pixels) (h1 : 1 ≤ k)
    (h2 : k ≤ pixels.length) :
    ∃ km out outPixels,
      kmeansFit 42 pixels k = .ok km ∧
      compress_image_kmeans img k = .ok out ∧
      toTriples out.data = some outPixels ∧
      km.cluster_centers_.length = k ∧
      (∀ c ∈ outPixels, c ∈ km.cluster_centers_.map truncColor) ∧
      outPixels.dedup.length ≤ k := by
  obtain ⟨km, out, hfit, hok, _, _, hout⟩ := compress_image_kmeans_spec hp h1 h2
  obtain ⟨hlen, hlab⟩ := kmeansFit_centers_length hfit
  have hne : km.cluster_centers_ ≠ [] := by
    intro hnil
    rw [hnil] at hlen
    simp at hlen
    omega
  have hmem : ∀ c ∈ (km.labels_.map fun l =>
      km.cluster_centers_.getD l ⟨0, 0, 0⟩).map truncColor,
      c ∈ km.cluster_centers_.map truncColor := by
    intro c hc
    obtain ⟨c', hc', rfl⟩ := List.mem_map.mp hc
    obtain ⟨l, hl, rfl⟩ := List.mem_map.mp hc'
    have hlt : l < km.cluster_centers_.length := by
      rw [hlab] at hl
      exact assignLabels_mem_lt hne l hl
    exact List.mem_map_of_mem truncColor (getD_mem _ hlt)
  refine ⟨km, out, _, hfit, hok, hout, hlen, hmem, ?_⟩
  calc ((km.labels_.map fun l => km.cluster_centers_.getD l ⟨0, 0, 0⟩).map
        truncColor).dedup.length
      ≤ (km.cluster_centers_.map truncColor).length :=
        dedup_length_le_of_subset hmem
    _ = k := by rw [List.length_map, hlen]

/-- C2.  For every 3-channel image array and every valid cluster count k,
`compress_image_kmeans` succeeds, the output has exactly the input's shape
(hence the same H×W×C) and flat size, and the pixel at each position holds
the centroid color of that position's cluster assignment, truncated to the
0–255 integer range. -/
theorem compress_preserves_geometry {img : NpArray} {pixels : List Color}
    {k : Nat} (hp : toTriples img.data = some pixels) (h1 : 1 ≤ k)
    (h2 : k ≤ pixels.length) :
    ∃ km out,
      kmeansFit 42 pixels k = .ok km ∧
      compress_image_kmeans img k = .ok out ∧
      out.shape = img.shape ∧
      out.data.length = img.data.length ∧
      km.labels_.length = pixels.length ∧
      toTriples out.data =
        some (km.labels_.map fun l =>
          truncColor (km.cluster_centers_.getD l ⟨0, 0, 0⟩)) := by
  obtain ⟨km, out, hfit, hok, hshape, hsize, hout⟩ :=
    compress_image_kmeans_spec hp h1 h2
  obtain ⟨_, hlab⟩ := kmeansFit_centers_length hfit
  refine ⟨km, out, hfit, hok, hshape, hsize, ?_, ?_⟩
  · rw [hlab, assignLabels_length]
  · rw [hout, List.map_map]
    rfl

/-- C6.  For every non-empty 3-channel image array, compressing with k = 1
succeeds and every pixel of the output holds the same color: the single
centroid, which is the mean of all samples, truncated to 8-bit. -/
theorem k1_uniform_output {img : NpArray} {pixels : List Color}
    (hp : toTriples img.data = some pixels) (hne : pixels ≠ []) :
    ∃ out, compress_image_kmeans img 1 = .ok out ∧
      toTriples out.data =
        some (List.replicate pixels.length (truncColor (colorMean pixels))) := by
  have h2 : 1 ≤ pixels.length := by
    cases pixels with
    | nil => exact absurd rfl hne
    | cons p ps => simp
  obtain ⟨km, out, hfit, hok, _, _, hout⟩ :=
    compress_image_kmeans_spec hp le_rfl h2
  have hfit' := @kmeansFit_ok 42 pixels 1 le_rfl h2
  rw [hfit'] at hfit
  injection hfit with hkm
  obtain ⟨c, hc⟩ := List.length_eq_one.mp (kmeansInit_length 42 h2)
  have h300 : (300 : Nat) = 299 + 1 := rfl
  have hcenters : lloydLoop pixels 300 (kmeansInit 42 pixels 1) =
      [colorMean pixels] := by
    rw [hc, h300]
    exact lloydLoop_single c 299 hne
  refine ⟨out, hok, ?_⟩
  rw [hout, ← hkm]
  simp only [hcenters, assignLabels_singleton, List.map_replicate]
  rfl

/-- C3.  The pipeline is deterministic: the clustering seed is fixed
(`random_state=42`), so two runs of `compress_image_kmeans` on the same
input array with the same cluster count yield bit-identical output
images. -/
theorem compress_deterministic (a₁ a₂ : NpArray) (k₁ k₂ : Nat)
    (h : a₁ = a₂) (hk : k₁ = k₂) :
    compress_image_kmeans a₁ k₁ = compress_image_kmeans a₂ k₂ := by
  rw [h, hk]

/-- C5.  For every pair of 3-channel image arrays,
`calculate_compression_ratio` returns the unique-color count of the
original divided by that of the compressed image when the latter is
nonzero, and returns 1 (without any division error) when it is zero. -/
theorem ratio_unique_colors {original_img compressed_img : NpArray}
    {po pc : List Color}
    (ho : toTriples original_img.data = some po)
    (hc : toTriples compressed_img.data = some pc) :
    calculate_compression_ratio original_img compressed_img =
      .ok (if 0 < pc.dedup.length
        then (po.dedup.length : ℚ) / (pc.dedup.length : ℚ) else 1) := by
  simp only [calculate_compression_ratio, ho, hc]

/-- C10.  `compress_image_kmeans` reinterprets its input as flat 3-channel
pixels via `reshape(-1, 3)`: (1) on any array whose total element count is
not a multiple of 3 (e.g. a 5×5 single-channel grayscale image) it raises a
ValueError instead of producing an image; (2) the flattened samples are the
consecutive value triples of the row-major data, so for a 4-channel RGBA
image (where the value at flat index j belongs to pixel j/4) sample 1 holds
the values at flat indices 3, 4, 5, which belong to pixels 0 and 1: values
are regrouped across pixel boundaries rather than clustered as whole
pixels. -/
theorem reshape_three_channels :
    (∀ (img : NpArray) (k : Nat), ¬ 3 ∣ img.data.length →
      compress_image_kmeans img k = .error .valueError) ∧
    (∀ (xs : List ℚ) (cs : List Color), toTriples xs = some cs →
      ∀ i, i < cs.length → cs.getD i ⟨0, 0, 0⟩ =
        ⟨xs.getD (3 * i) 0, xs.getD (3 * i + 1) 0, xs.getD (3 * i + 2) 0⟩) := by
  constructor
  · intro img k h
    simp only [compress_image_kmeans, toTriples_none_of_not_dvd h]
  · exact fun xs cs h => toTriples_getD h

/-- C4.  For every sample set and every k with k < 1 or k greater than the
sample count, the clustering engine fails with the spec's
InvalidParameterError class instead of returning a result, and the
compression pipeline propagates that failure before `save_image` runs, so
no output file is written: the filesystem comes back unchanged. -/
theorem invalid_k_fails_without_output {pixels : List Color} {k : Nat}
    (h : k < 1 ∨ pixels.length < k) :
    (∀ seed, kmeansFit seed pixels k = .error .invalidParameter) ∧
    (∀ (enc : NpArray → Nat) (fs : FS) (input_path output_path : String)
      (img : NpArray), load_image fs input_path = some img →
      toTriples img.data = some pixels →
      compress_image_file enc fs input_path output_path k =
        .error (.invalidParameter, fs)) := by
  refine ⟨fun seed => kmeansFit_err h, ?_⟩
  intro enc fs input_path output_path img hload hp
  have hck : compress_image_kmeans img k = .error .invalidParameter := by
    simp only [compress_image_kmeans, hp, @kmeansFit_err 42 pixels k h]
  simp only [compress_image_file, hload, hck]

/-- C8.  For every input path that does not exist on the filesystem, the
command surface exits with status 1 (nonzero) and the filesystem is
unchanged: no output file is written. -/
theorem main_missing_input_exits_nonzero (enc : NpArray → Nat) (fs : FS)
    (input : String) (colors : Nat) (analysis : Bool) (output : String)
    (h : fs.path_exists input = false) :
    main enc fs input colors analysis output = (1, fs) := by
  simp only [main, h, Bool.false_eq_true, if_false]

/-- C9 counterexample.  At an output path with no directory component the
claim fails: `save_image` does not succeed there; `os.makedirs("")`
(the result of `os.path.dirname("out.png")`) raises FileNotFoundError, and
nothing is written. -/
theorem save_image_bare_filename_fails :
    save_image (fun a => a.data.length) ⟨[], [], []⟩ ⟨[1], [0]⟩ "out.png" =
      .error (.fileNotFoundError, ⟨[], [], []⟩) := by
  rfl

/-- C9 (amended).  For every output path with a nonempty directory
component, `save_image` creates the parent directory before writing, writes
the encoded file at the path and returns the written file's byte size; for
a path with no directory component it instead raises FileNotFoundError
(from `os.makedirs("")`) and writes nothing. -/
theorem save_image_creates_parent_dirs :
    (∀ (enc : NpArray → Nat) (fs : FS) (img_array : NpArray) (path : String),
      os_path_dirname path ≠ "" →
      save_image enc fs img_array path =
        .ok (enc img_array,
          ⟨fs.images, (path, enc img_array) :: fs.written,
            os_path_dirname path :: fs.dirs⟩)) ∧
    (∀ (enc : NpArray → Nat) (fs : FS) (img_array : NpArray) (path : String),
      os_path_dirname path = "" →
      save_image enc fs img_array path = .error (.fileNotFoundError, fs)) := by
  constructor
  · intro enc fs img_array path h
    simp only [save_image, os_makedirs, if_neg h]
  · intro enc fs img_array path h
    simp only [save_image, os_makedirs, if_pos h]

/-! Path lemmas feeding the multi-level driver: a join under a nonempty
directory contains a slash, and a path containing a slash has a nonempty
dirname, so every save of the driver succeeds. -/

theorem string_mk_ne_empty {l : List Char} (h : l ≠ []) :
    String.mk l ≠ "" := by
  intro he
  exact h (by simpa using congrArg String.data he)

theorem getLast?_mem {α : Type} :
    ∀ {l : List α} {a : α}, l.getLast? = some a → a ∈ l := by
  intro l
  induction l with
  | nil => intro a h; simp at h
  | cons x t ih =>
      intro a h
      cases t with
      | nil =>
          simp only [List.getLast?_singleton, Option.some_inj] at h
          simp [h]
      | cons y t' =>
          rw [List.getLast?_cons_cons] at h
          simpa using Or.inr (ih h)

theorem slash_mem_join {a b : String} (ha : a ≠ "")
    (hb : b.data.head? ≠ some '/') : '/' ∈ (os_path_join a b).data := by
  rw [os_path_join, if_neg hb]
  by_cases hlast : a = "" ∨ a.data.getLast? = some '/'
  · rw [if_pos hlast]
    rcases hlast with h | h
    · exact absurd h ha
    · rw [String.data_append]
      exact List.mem_append_left _ (getLast?_mem h)
  · rw [if_neg hlast]
    rw [String.data_append, String.data_append]
    exact List.mem_append_left _ (List.mem_append_right _ (by simp))

theorem dropWhile_until_mem {l : List Char} (h : '/' ∈ l) :
    ∃ t, l.dropWhile (fun c => !(c == '/')) = '/' :: t := by
  induction l with
  | nil => simp at h
  | cons c cs ih =>
      by_cases hc : c = '/'
      · subst hc
        exact ⟨cs, by simp [List.dropWhile_cons]⟩
      · have hmem : '/' ∈ cs := by
          rcases List.mem_cons.mp h with h' | h'
          · exact absurd h'.symm hc
          · exact h'
        obtain ⟨t, ht⟩ := ih hmem
        refine ⟨t, ?_⟩
        rw [List.dropWhile_cons, if_pos (by simpa using hc), ht]

theorem dirname_ne_empty_of_slash {p : String} (h : '/' ∈ p.data) :
    os_path_dirname p ≠ "" := by
  rw [os_path_dirname]
  obtain ⟨t, ht⟩ := @dropWhile_until_mem p.data.reverse (by simpa using h)
  rw [ht]
  by_cases hall : (('/' :: t).all fun c => c == '/') = true
  · rw [if_pos hall]
    exact string_mk_ne_empty (by simp)
  · rw [if_neg hall]
    apply string_mk_ne_empty
    intro he
    apply hall
    rw [List.all_eq_true]
    intro x hx
    have hnil : ('/' :: t).dropWhile (fun c => c == '/') = [] := by
      have := congrArg List.reverse he
      simpa using this
    exact List.dropWhile_eq_nil_iff.mp hnil x hx

theorem dirname_join_ne_empty {a b : String} (ha : a ≠ "")
    (hb : b.data.head? ≠ some '/') :
    os_path_dirname (os_path_join a b) ≠ "" :=
  dirname_ne_empty_of_slash (slash_mem_join ha hb)

theorem compressed_name_head (n : Nat) :
    ("compressed_" ++ toString n ++ "_colors.png").data.head? = some 'c' := by
  rw [String.data_append, String.data_append, List.head?_append]
  rfl

/-- Internal form of the ratio computation on reshapable arrays (shared by
the driver specification). -/
theorem calcRatio_eq {original_img compressed_img : NpArray}
    {po pc : List Color}
    (ho : toTriples original_img.data = some po)
    (hc : toTriples compressed_img.data = some pc) :
    calculate_compression_ratio original_img compressed_img =
      .ok (if 0 < pc.dedup.length
        then (po.dedup.length : ℚ) / (pc.dedup.length : ℚ) else 1) := by
  simp only [calculate_compression_ratio, ho, hc]

theorem lookup_some_any {l : List (String × NpArray)} {p : String}
    {v : NpArray} (h : l.lookup p = some v) :
    l.any (fun e => e.1 == p) = true := by
  induction l with
  | nil => simp [List.lookup] at h
  | cons e es ih =>
      obtain ⟨k, w⟩ := e
      rw [List.lookup] at h
      cases hpk : (p == k) with
      | true =>
          have hk : k = p := (beq_iff_eq.mp hpk).symm
          simp [hk]
      | false =>
          simp only [hpk] at h
          simpa using Or.inr (ih h)

theorem path_exists_of_load {fs : FS} {p : String} {img : NpArray}
    (h : load_image fs p = some img) : fs.path_exists p = true := by
  rw [FS.path_exists, lookup_some_any h]
  rfl

/-- One level of the driver: with a reshapable image, a valid k and a
nonempty output directory, the compress/save/ratio cycle succeeds and
produces the recorded per-level result. -/
theorem runLevels_spec (enc : NpArray → Nat) (img_array : NpArray)
    (output_dir : String) {pixels : List Color}
    (hp : toTriples img_array.data = some pixels) (hdir : output_dir ≠ "") :
    ∀ (levels : List Nat) (fs : FS),
      (∀ k ∈ levels, 1 ≤ k ∧ k ≤ pixels.length) →
      ∃ rs fs', runLevels enc img_array output_dir levels fs = .ok (rs, fs') ∧
        rs.map (fun r => r.n_colors) = levels ∧
        ∀ r ∈ rs,
          compress_image_kmeans img_array r.n_colors = .ok r.image ∧
          calculate_compression_ratio img_array r.image = .ok r.ratio ∧
          r.file_size = enc r.image ∧
          r.path = os_path_join output_dir
            ("compressed_" ++ toString r.n_colors ++ "_colors.png") := by
  intro levels
  induction levels with
  | nil =>
      intro fs _
      exact ⟨[], fs, rfl, rfl, by simp⟩
  | cons n rest ih =>
      intro fs hvalid
      obtain ⟨h1, h2⟩ := hvalid n (by simp)
      obtain ⟨km, out, _, hok, _, _, hout⟩ :=
        compress_image_kmeans_spec hp h1 h2
      set pth := os_path_join output_dir
        ("compressed_" ++ toString n ++ "_colors.png") with hpth
      have hdirname : os_path_dirname pth ≠ "" :=
        dirname_join_ne_empty hdir (by rw [compressed_name_head]; simp)
      have hsave : save_image enc fs out pth =
          .ok (enc out,
            ⟨fs.images, (pth, enc out) :: fs.written,
              os_path_dirname pth :: fs.dirs⟩) := by
        simp only [save_image, os_makedirs, if_neg hdirname]
      have hratio := calcRatio_eq hp hout
      obtain ⟨rs', fs'', hrun, hmap, hall⟩ :=
        ih ⟨fs.images, (pth, enc out) :: fs.written,
            os_path_dirname pth :: fs.dirs⟩
          (fun k hk => hvalid k (by simp [hk]))
      refine ⟨⟨n, pth, out, if 0 < ((km.labels_.map fun l =>
          km.cluster_centers_.getD l ⟨0, 0, 0⟩).map truncColor).dedup.length
        then ((pixels.dedup.length : ℚ) /
          (((km.labels_.map fun l => km.cluster_centers_.getD l
            ⟨0, 0, 0⟩).map truncColor).dedup.length : ℚ)) else 1,
        enc out⟩ :: rs', fs'', ?_, ?_, ?_⟩
      · simp only [runLevels, hok, ← hpth, hsave, hratio, hrun]
      · simp [hmap]
      · intro r hr
        rcases List.mem_cons.mp hr with hr | hr
        · subst hr
          exact ⟨hok, hratio, rfl, rfl⟩
        · exact hall r hr

/-- C7.  Invoked with the full-analysis flag on an existing, loadable input
(with at least 128 pixels so all levels are valid) and a nonempty output
directory, the command surface runs the Multi-Level Driver over exactly the
fixed level set [4, 8, 16, 32, 64, 128]: it succeeds, exits with status 0,
and produces one Compression Result per requested k — holding the requested
k, the reconstructed image, the ratio metric and the output file's byte
size — in the same order as the level sequence. -/
theorem analysis_runs_fixed_levels {enc : NpArray → Nat} {fs : FS}
    {input output_dir : String} {img : NpArray} {pixels : List Color}
    (colors : Nat)
    (hload : load_image fs input = some img)
    (hp : toTriples img.data = some pixels)
    (hn : 128 ≤ pixels.length)
    (hdir : output_dir ≠ "") :
    ∃ rs fs',
      compress_with_analysis enc fs input output_dir "../images/comparisons" =
        .ok (some rs, fs') ∧
      main enc fs input colors true output_dir = (0, fs') ∧
      rs.map (fun r => r.n_colors) = [4, 8, 16, 32, 64, 128] ∧
      ∀ r ∈ rs,
        compress_image_kmeans img r.n_colors = .ok r.image ∧
        calculate_compression_ratio img r.image = .ok r.ratio ∧
        r.file_size = enc r.image := by
  have hcmp : ("../images/comparisons" : String) ≠ "" := by decide
  have hvalid : ∀ k ∈ [4, 8, 16, 32, 64, 128], 1 ≤ k ∧ k ≤ pixels.length := by
    intro k hk
    simp only [List.mem_cons, List.not_mem_nil, or_false] at hk
    rcases hk with rfl | rfl | rfl | rfl | rfl | rfl <;> omega
  have hload₂ : load_image
      { { fs with dirs := output_dir :: fs.dirs } with
        dirs := "../images/comparisons" :: output_dir :: fs.dirs } input =
      some img := hload
  obtain ⟨rs, fs', hrun, hmap, hall⟩ :=
    runLevels_spec enc img output_dir hp hdir [4, 8, 16, 32, 64, 128]
      { fs with dirs := "../images/comparisons" :: output_dir :: fs.dirs }
      hvalid
  have hana : compress_with_analysis enc fs input output_dir
      "../images/comparisons" = .ok (some rs, fs') := by
    simp only [compress_with_analysis, os_makedirs, if_neg hdir, if_neg hcmp,
      compress_with_multiple_levels, hload₂, hrun]
  refine ⟨rs, fs', hana, ?_, hmap, fun r hr => ⟨(hall r hr).1, (hall r hr).2.1,
    (hall r hr).2.2.1⟩⟩
  simp only [main, path_exists_of_load hload, if_true, hana]

/-! Closed witnesses: each claim theorem applied at a concrete input, with
its hypotheses discharged there. -/

/-- Witness for `compress_at_most_k_colors` at a 2-pixel image with k = 2. -/
theorem compress_at_most_k_colors_witness :
    toTriples (NpArray.mk [1, 2, 3] [0, 0, 0, 6, 6, 6]).data =
        some [⟨0, 0, 0⟩, ⟨6, 6, 6⟩] ∧
    (∃ km out outPixels,
      kmeansFit 42 [⟨0, 0, 0⟩, ⟨6, 6, 6⟩] 2 = .ok km ∧
      compress_image_kmeans ⟨[1, 2, 3], [0, 0, 0, 6, 6, 6]⟩ 2 = .ok out ∧
      toTriples out.data = some outPixels ∧
      km.cluster_centers_.length = 2 ∧
      (∀ c ∈ outPixels, c ∈ km.cluster_centers_.map truncColor) ∧
      outPixels.dedup.length ≤ 2) :=
  ⟨rfl, compress_at_most_k_colors rfl (by decide) (by decide)⟩

/-- Witness for `compress_preserves_geometry` at a 2-pixel image with
k = 2. -/
theorem compress_preserves_geometry_witness :
    toTriples (NpArray.mk [2, 3] [0, 0, 0, 6, 6, 6]).data =
        some [⟨0, 0, 0⟩, ⟨6, 6, 6⟩] ∧
    (∃ km out,
      kmeansFit 42 [⟨0, 0, 0⟩, ⟨6, 6, 6⟩] 2 = .ok km ∧
      compress_image_kmeans ⟨[2, 3], [0, 0, 0, 6, 6, 6]⟩ 2 = .ok out ∧
      out.shape = [2, 3] ∧
      out.data.length = 6 ∧
      km.labels_.length = 2 ∧
      toTriples out.data =
        some (km.labels_.map fun l =>
          truncColor (km.cluster_centers_.getD l ⟨0, 0, 0⟩))) :=
  ⟨rfl, compress_preserves_geometry rfl (by decide) (by decide)⟩

/-- Witness for `compress_deterministic`: two runs at the same concrete
input and k agree. -/
theorem compress_deterministic_witness :
    (NpArray.mk [2, 3] [0, 0, 0, 6, 6, 6]) = ⟨[2, 3], [0, 0, 0, 6, 6, 6]⟩ ∧
    (16 : Nat) = 16 ∧
    compress_image_kmeans ⟨[2, 3], [0, 0, 0, 6, 6, 6]⟩ 16 =
      compress_image_kmeans ⟨[2, 3], [0, 0, 0, 6, 6, 6]⟩ 16 :=
  ⟨rfl, rfl, compress_deterministic _ _ _ _ rfl rfl⟩

/-- Witness for `invalid_k_fails_without_output` at k = 5 on 2 samples. -/
theorem invalid_k_fails_without_output_witness :
    ((5 : Nat) < 1 ∨ ([⟨0, 0, 0⟩, ⟨6, 6, 6⟩] : List Color).length < 5) ∧
    kmeansFit 42 [⟨0, 0, 0⟩, ⟨6, 6, 6⟩] 5 = .error .invalidParameter ∧
    compress_image_file (fun a => a.data.length)
      ⟨[("in.png", ⟨[2, 3], [0, 0, 0, 6, 6, 6]⟩)], [], []⟩ "in.png" "d/o.png" 5 =
      .error (.invalidParameter,
        ⟨[("in.png", ⟨[2, 3], [0, 0, 0, 6, 6, 6]⟩)], [], []⟩) :=
  ⟨by decide, (invalid_k_fails_without_output (by decide)).1 42,
    (invalid_k_fails_without_output (by decide)).2
      (fun a => a.data.length) _ "in.png" "d/o.png" _ rfl rfl⟩

/-- Witness for `ratio_unique_colors` at a degenerate compressed image with
zero unique colors: the guard returns 1. -/
theorem ratio_unique_colors_witness :
    toTriples (NpArray.mk [2, 3] [0, 0, 0, 6, 6, 6]).data =
        some [⟨0, 0, 0⟩, ⟨6, 6, 6⟩] ∧
    toTriples (NpArray.mk [0] []).data = some [] ∧
    calculate_compression_ratio ⟨[2, 3], [0, 0, 0, 6, 6, 6]⟩ ⟨[0], []⟩ =
      .ok 1 := by
  refine ⟨rfl, rfl, ?_⟩
  have h := @ratio_unique_colors ⟨[2, 3], [0, 0, 0, 6, 6, 6]⟩ ⟨[0], []⟩
    [⟨0, 0, 0⟩, ⟨6, 6, 6⟩] [] rfl rfl
  simpa using h

/-- Witness for `k1_uniform_output` at a 2-pixel image: both pixels become
the truncated mean. -/
theorem k1_uniform_output_witness :
    toTriples (NpArray.mk [2, 3] [0, 0, 0, 5, 5, 5]).data =
        some [⟨0, 0, 0⟩, ⟨5, 5, 5⟩] ∧
    ([⟨0, 0, 0⟩, ⟨5, 5, 5⟩] : List Color) ≠ [] ∧
    (∃ out, compress_image_kmeans ⟨[2, 3], [0, 0, 0, 5, 5, 5]⟩ 1 = .ok out ∧
      toTriples out.data = some (List.replicate 2
        (truncColor (colorMean [⟨0, 0, 0⟩, ⟨5, 5, 5⟩])))) :=
  ⟨rfl, by decide,
    @k1_uniform_output ⟨[2, 3], [0, 0, 0, 5, 5, 5]⟩ [⟨0, 0, 0⟩, ⟨5, 5, 5⟩]
      rfl (by decide)⟩

/-- Witness for `analysis_runs_fixed_levels` at a 128-pixel all-black
image. -/
theorem analysis_runs_fixed_levels_witness :
    ∃ rs fs',
      compress_with_analysis (fun a => a.data.length)
        ⟨[("in.png", ⟨[128, 3], List.replicate 384 0⟩)], [], []⟩ "in.png"
        "out" "../images/comparisons" = .ok (some rs, fs') ∧
      main (fun a => a.data.length)
        ⟨[("in.png", ⟨[128, 3], List.replicate 384 0⟩)], [], []⟩ "in.png" 16
        true "out" = (0, fs') ∧
      rs.map (fun r => r.n_colors) = [4, 8, 16, 32, 64, 128] ∧
      ∀ r ∈ rs,
        compress_image_kmeans ⟨[128, 3], List.replicate 384 0⟩ r.n_colors =
          .ok r.image ∧
        calculate_compression_ratio ⟨[128, 3], List.replicate 384 0⟩ r.image =
          .ok r.ratio ∧
        r.file_size = r.image.data.length :=
  analysis_runs_fixed_levels 16 rfl (toTriples_replicate_zero 128)
    (by simp) (by decide)

/-- Witness for `main_missing_input_exits_nonzero` on an empty
filesystem. -/
theorem main_missing_input_exits_nonzero_witness :
    FS.path_exists ⟨[], [], []⟩ "missing.png" = false ∧
    main (fun a => a.data.length) ⟨[], [], []⟩ "missing.png" 16 false "out" =
      (1, ⟨[], [], []⟩) :=
  ⟨rfl, main_missing_input_exits_nonzero _ _ _ _ _ _ rfl⟩

/-- Witness for `save_image_creates_parent_dirs`: a path with a directory
component succeeds and creates the parent; a bare filename fails. -/
theorem save_image_creates_parent_dirs_witness :
    os_path_dirname "d/out.png" ≠ "" ∧
    save_image (fun a => a.data.length) ⟨[], [], []⟩ ⟨[1], [0]⟩ "d/out.png" =
      .ok (1, ⟨[], [("d/out.png", 1)], ["d"]⟩) ∧
    os_path_dirname "img2.png" = "" ∧
    save_image (fun a => a.data.length) ⟨[], [], []⟩ ⟨[1], [0]⟩ "img2.png" =
      .error (.fileNotFoundError, ⟨[], [], []⟩) :=
  ⟨by decide,
    save_image_creates_parent_dirs.1 (fun a => a.data.length) ⟨[], [], []⟩
      ⟨[1], [0]⟩ "d/out.png" (by decide),
    by decide,
    save_image_creates_parent_dirs.2 (fun a => a.data.length) ⟨[], [], []⟩
      ⟨[1], [0]⟩ "img2.png" (by decide)⟩

/-- Witness for `reshape_three_channels`: a 4-element array raises
ValueError; a 12-element row-major RGBA buffer (three 4-channel pixels) is
regrouped into triples, and sample 1 holds flat indices 3, 4, 5 — the alpha
of pixel 0 followed by two channels of pixel 1. -/
theorem reshape_three_channels_witness :
    (¬ 3 ∣ (NpArray.mk [2, 2] [1, 2, 3, 4]).data.length) ∧
    compress_image_kmeans ⟨[2, 2], [1, 2, 3, 4]⟩ 2 = .error .valueError ∧
    toTriples [10, 11, 12, 13, 20, 21, 22, 23, 30, 31, 32, 33] =
      some [⟨10, 11, 12⟩, ⟨13, 20, 21⟩, ⟨22, 23, 30⟩, ⟨31, 32, 33⟩] ∧
    ([⟨10, 11, 12⟩, ⟨13, 20, 21⟩, ⟨22, 23, 30⟩, ⟨31, 32, 33⟩] :
        List Color).getD 1 ⟨0, 0, 0⟩ =
      ⟨([10, 11, 12, 13, 20, 21, 22, 23, 30, 31, 32, 33] : List ℚ).getD 3 0,
        ([10, 11, 12, 13, 20, 21, 22, 23, 30, 31, 32, 33] : List ℚ).getD 4 0,
        ([10, 11, 12, 13, 20, 21, 22, 23, 30, 31, 32, 33] : List ℚ).getD 5 0⟩ :=
  ⟨by decide, reshape_three_channels.1 ⟨[2, 2], [1, 2, 3, 4]⟩ 2 (by decide),
    rfl,
    reshape_three_channels.2 [10, 11, 12, 13, 20, 21, 22, 23, 30, 31, 32, 33]
      [⟨10, 11, 12⟩, ⟨13, 20, 21⟩, ⟨22, 23, 30⟩, ⟨31, 32, 33⟩] rfl 1
      (by decide)⟩

end ImgKMeans
